import Mathlib

/-!
# kubearmor-client: recommendation engine and registry scanner

A shallow embedding of `recommend/engines/generic_policies` and `recommend/registry`
and the properties of the matcher, the path sanitizer, the image cache and the
rule-database refresh.

Go strings are embedded as `String`; the library routines the code calls
(`path/filepath`, `strings`, `regexp`) are embedded for Unix paths.
-/

namespace KubeArmorClient

/-! ## `strings` -/

/-- Embeds `strings.HasPrefix(s, pre)`. -/
def hasPrefix (s pre : String) : Bool :=
  pre.toList.isPrefixOf s.toList

/-- Embeds `strings.HasSuffix(s, suf)`. -/
def hasSuffix (s suf : String) : Bool :=
  suf.toList.isSuffixOf s.toList

/-- Whether `sub` occurs in `s` as a contiguous block, on character lists. -/
def hasSub (sub : List Char) : List Char → Bool
  | [] => sub.isPrefixOf []
  | c :: s => sub.isPrefixOf (c :: s) || hasSub sub s

/-- Embeds `strings.Contains(s, sub)`. -/
def strContains (s sub : String) : Bool :=
  hasSub sub.toList s.toList

/-! ## `path/filepath` (Unix) -/

/-- Splits a path at every `/`; `n` separators give `n + 1` elements. -/
def splitSlash : List Char → List (List Char)
  | [] => [[]]
  | c :: cs =>
    if c = '/' then [] :: splitSlash cs
    else
      match splitSlash cs with
      | [] => [[c]]
      | w :: ws => (c :: w) :: ws

/-- One path element processed by `filepath.Clean`; `stack` holds the elements written so
far, last one first. Empty and `.` elements are dropped, `..` removes the element before it
when there is one, is kept at the front of a relative path and dropped at the root. -/
def cleanStep (rooted : Bool) (stack : List (List Char)) (comp : List Char) :
    List (List Char) :=
  if comp = [] ∨ comp = ['.'] then stack
  else if comp = ['.', '.'] then
    match stack with
    | top :: below => if top = ['.', '.'] then comp :: stack else below
    | [] => if rooted then [] else [comp]
  else comp :: stack

/-- Joins path elements with `/`. -/
def joinSlash : List (List Char) → List Char
  | [] => []
  | [w] => w
  | w :: ws => w ++ '/' :: joinSlash ws

/-- Embeds `filepath.Clean` on character lists. -/
def cleanChars (p : List Char) : List Char :=
  let rooted := p.head? == some '/'
  let body := joinSlash ((splitSlash p).foldl (cleanStep rooted) []).reverse
  if rooted then '/' :: body else if body = [] then ['.'] else body

/-- Embeds `filepath.Clean(path)`. -/
def filepathClean (path : String) : String :=
  String.mk (cleanChars path.toList)

/-- Embeds `filepath.Join(elem...)`: empty elements before the first non-empty one are
ignored, the rest is joined with `/` and cleaned; all empty gives the empty string. -/
def filepathJoin : List String → String
  | [] => ""
  | e :: es =>
    if e = "" then filepathJoin es
    else filepathClean (String.intercalate "/" (e :: es))

/-! ## `regexp`

The engine compiles every precondition with `regexp.MustCompile` and tests file names
with `Regexp.Match`, an unanchored search. The embedding is exact on the patterns built
from literal characters, `.`, `*` and `$`; what the library does with any other pattern
is a parameter `ext` of the embedding (`none` stands for the panic of `MustCompile`). -/

/-- A compiled pattern as the engine uses it: the test `Regexp.Match` on a string. -/
abbrev Matcher := String → Bool

/-- The regexp library on a class of patterns: `none` when `MustCompile` panics. -/
abbrev Compiler := String → Option Matcher

/-- A one-character pattern: a literal, or `.` (any character but a newline). -/
inductive ReAtom where
  | lit (c : Char)
  | dot
  deriving DecidableEq, Repr

/-- An element of a pattern of the fragment: an atom, a starred atom, or `$`. -/
inductive ReItem where
  | one (a : ReAtom)
  | star (a : ReAtom)
  | eot
  deriving DecidableEq, Repr

/-- The characters with a meaning of their own that the fragment leaves to `ext`. -/
def reOutside : List Char :=
  ['\\', '+', '?', '(', ')', '|', '[', ']', '{', '}', '^']

/-- Whether a pattern belongs to the embedded fragment: none of the characters of
`reOutside`, and no `$` directly followed by `*`. -/
def inFragment (p : List Char) : Bool :=
  p.all (fun c => !reOutside.contains c) && !hasSub ['$', '*'] p

/-- The atom a pattern character stands for. -/
def ReAtom.ofChar (c : Char) : ReAtom :=
  if c = '.' then .dot else .lit c

/-- Parses a pattern of the fragment. A `*` with nothing to repeat (at the start of the
pattern, or right after another `*`) is the library's syntax error. -/
def parseItems : List Char → Option (List ReItem)
  | [] => some []
  | '*' :: _ => none
  | '$' :: rest => (parseItems rest).map (ReItem.eot :: ·)
  | c :: '*' :: rest => (parseItems rest).map (ReItem.star (ReAtom.ofChar c) :: ·)
  | c :: rest => (parseItems rest).map (ReItem.one (ReAtom.ofChar c) :: ·)

/-- Whether an atom accepts a character. -/
def ReAtom.test : ReAtom → Char → Bool
  | .lit c, x => x == c
  | .dot, x => x != '\n'

/-- Matching of `a*` followed by the continuation `k`: zero or more characters accepted
by `a`, then `k` on what is left. -/
def starLoop (a : ReAtom) (k : List Char → Bool) : List Char → Bool
  | [] => k []
  | c :: s => k (c :: s) || (a.test c && starLoop a k s)

/-- Whether the items match a prefix of the input on which `$` sees the end of text. -/
def matchHere : List ReItem → List Char → Bool
  | [], _ => true
  | .eot :: rest, s => s.isEmpty && matchHere rest s
  | .one a :: rest, s =>
    match s with
    | [] => false
    | c :: s' => a.test c && matchHere rest s'
  | .star a :: rest, s => starLoop a (matchHere rest) s

/-- Unanchored search: whether the items match starting at some position of the input. -/
def matchAnywhere (items : List ReItem) : List Char → Bool
  | [] => matchHere items []
  | c :: s => matchHere items (c :: s) || matchAnywhere items s

/-- Embeds `regexp.MustCompile(pat)` together with `Match` of the result. -/
def regexpMustCompile (ext : Compiler) (pat : String) : Option Matcher :=
  if inFragment pat.toList then
    (parseItems pat.toList).map (fun items name => matchAnywhere items name.toList)
  else ext pat

/-! ## Data model -/

/-- The fields of `pol.KubeArmorPolicySpec` the engine reads (`Tags`), the rest of the
policy payload carried as `Body`. -/
structure KubeArmorPolicySpec where
  Tags : List String := []
  Body : String := ""
  deriving DecidableEq, Repr

/-- Embeds `Ref`. -/
structure Ref where
  Name : String := ""
  URL : List String := []
  deriving DecidableEq, Repr

/-- Embeds `Description`. -/
structure Description where
  Refs : List Ref := []
  Tldr : String := ""
  Detailed : String := ""
  deriving DecidableEq, Repr

/-- Embeds `MatchSpec`. -/
structure MatchSpec where
  Name : String := ""
  Precondition : List String := []
  Description : Description := {}
  Yaml : String := ""
  Spec : KubeArmorPolicySpec := {}
  deriving DecidableEq, Repr

/-- The fields of `image.ImageInfo` that the scanner and the engine use. -/
structure ImageInfo where
  Name : String := ""
  Namespace : String := ""
  Labels : List (String × String) := []
  Image : String := ""
  Arch : String := ""
  Distro : String := ""
  OS : String := ""
  RepoTags : List String := []
  FileList : List String := []
  DirList : List String := []
  TempDir : String := ""
  deriving DecidableEq, Repr

/-! ## Matcher (`generic_policies.go`) -/

/-- Embeds `checkForSpec`: the names of `fl` the pattern matches, in order; `none` when
the pattern does not compile. A pattern without a trailing `*` gets `$` appended. -/
def checkForSpec (ext : Compiler) (spec : String) (fl : List String) :
    Option (List String) :=
  let spec := if !hasSuffix spec "*" then spec ++ "$" else spec
  match regexpMustCompile ext spec with
  | none => none
  | some re => some (fl.filter (fun name => re name))

/-- Embeds `matchTags`. -/
def matchTags (ms : MatchSpec) (tags : List String) : Bool :=
  if tags.length ≤ 0 then true
  else tags.any (fun t => ms.Spec.Tags.contains t)

/-- How the loop of `checkPreconditions` ends: by `return true` inside it, or by running
through every precondition with the matches collected. -/
inductive LoopEnd where
  | returnedTrue
  | fellThrough (found : List String)
  deriving DecidableEq, Repr

/-- The loop of `checkPreconditions` from the matches collected so far over the
preconditions left; `none` when a pattern does not compile. -/
def preconditionLoop (ext : Compiler) (fl : List String) :
    List String → List String → Option LoopEnd
  | found, [] => some (.fellThrough found)
  | found, preCondition :: rest =>
    match checkForSpec ext (filepathJoin [preCondition]) fl with
    | none => none
    | some more =>
      if strContains preCondition "OPTSCAN" then some .returnedTrue
      else preconditionLoop ext fl (found ++ more) rest

/-- Embeds `checkPreconditions`; `none` when a pattern does not compile. -/
def checkPreconditions (ext : Compiler) (img : ImageInfo) (ms : MatchSpec) : Option Bool :=
  match preconditionLoop ext img.FileList [] ms.Precondition with
  | none => none
  | some .returnedTrue => some true
  | some (.fellThrough found) => some (decide (found.length ≥ ms.Precondition.length))

/-! ## Rule cursor and engine loop -/

/-- Embeds `getNextRule` on the rule list `policyRules`: the rule or the error, and the
cursor after the call. `none` is the index panic of `policyRules[*idx]` on a cursor that
is still negative after the increment. -/
def getNextRule (policyRules : List MatchSpec) (idx : Int) :
    Option (Except String MatchSpec × Int) :=
  let idx := if idx < 0 then idx + 1 else idx
  if idx ≥ policyRules.length then some (.error "no rule at idx", idx)
  else if idx < 0 then none
  else
    match policyRules[idx.toNat]? with
    | some r => some (.ok r, idx + 1)
    | none => none

/-- How a run of the engine over one image ends. -/
inductive Status where
  | returned
  | panicked
  | outOfFuel
  deriving DecidableEq, Repr

/-- A run of the engine over one image: the rules handed to `writePolicyFile`, in the
order of the calls, and how the run ended. -/
structure ScanRun where
  emitted : List MatchSpec
  status : Status
  deriving DecidableEq, Repr

/-- The `for` loop of `getPolicyFromImageInfo`, one `getNextRule` per unit of fuel. -/
def scanLoop (ext : Compiler) (policyRules : List MatchSpec) (img : ImageInfo)
    (tags : List String) : Nat → Int → List MatchSpec → ScanRun
  | 0, _, out => ⟨out, .outOfFuel⟩
  | fuel + 1, idx, out =>
    match getNextRule policyRules idx with
    | none => ⟨out, .panicked⟩
    | some (.error _, _) => ⟨out, .returned⟩
    | some (.ok ms, idx) =>
      if !matchTags ms tags then scanLoop ext policyRules img tags fuel idx out
      else
        match checkPreconditions ext img ms with
        | none => ⟨out, .panicked⟩
        | some false => scanLoop ext policyRules img tags fuel idx out
        | some true => scanLoop ext policyRules img tags fuel idx (out ++ [ms])

/-- Embeds `getPolicyFromImageInfo`: the loop runs from cursor 0, which needs one
`getNextRule` per rule and one more for the end. -/
def getPolicyFromImageInfo (ext : Compiler) (policyRules : List MatchSpec)
    (img : ImageInfo) (tags : List String) : ScanRun :=
  if img.OS ≠ "linux" then ⟨[], .returned⟩
  else scanLoop ext policyRules img tags (policyRules.length + 1) 0 []

/-! ## Path sanitizer (`registry.go`, `policy-templates.go`) -/

/-- Embeds `sanitizeArchivePath` (the two copies are the same text). -/
def sanitizeArchivePath (d t : String) : Except String String :=
  let v := filepathJoin [d, t]
  if hasPrefix v (filepathClean d) then .ok v
  else .error ("content filepath is tainted: " ++ t)

/-- Whether path `v` lies inside directory `d`: it is the cleaned `d` or below it. -/
def insideRoot (d v : String) : Bool :=
  v == filepathClean d || hasPrefix v (filepathClean d ++ "/")

/-! ## Registry scanner (`registry.go`)

The docker daemon, the temporary directory and the saved archive are outside the program:
what they answer during one `Analyze` is a `World` value, one per call. -/

/-- What `GetImageInfo` reads from the metadata of the pulled image. -/
structure ImageMeta where
  OS : String := ""
  Arch : String := ""
  Distro : String := ""
  Labels : List (String × String) := []
  RepoTags : List String := []
  deriving DecidableEq, Repr

/-- The answers of the outside world during one `Analyze`. -/
structure World where
  /-- the directory `os.MkdirTemp` returns, empty when it fails -/
  tmpDir : String := ""
  /-- whether `ImagePull` succeeds (returns a nil error) with a credential -/
  imagePull : String → Bool := fun _ => false
  /-- whether `DisplayJSONMessagesStream` fails on the pull stream -/
  displayFails : Bool := false
  /-- the file and directory lists of `saveImageToTar` and `extractTar`, `none` when one
  of them ends the process with `log.Fatal` -/
  extracted : Option (List String × List String) := none
  /-- the metadata of the pulled image -/
  inspected : ImageMeta := {}

/-- The `cache` map of the scanner, newest entry first. -/
abbrev Cache := List (String × ImageInfo)

/-- Embeds `authConfigurations`. -/
structure authConfigurations where
  configPath : String := ""
  authCreds : List String := []
  deriving DecidableEq, Repr

/-- Embeds `RegistryScanner`, without the docker client, whose answers are in `World`;
the cache is the map that `New` makes, never the nil map. -/
structure RegistryScanner where
  authConfiguration : authConfigurations := {}
  cache : Cache := []
  deriving DecidableEq, Repr

/-- Embeds `loadDockerAuthConfigs`: the credential made from the environment is appended,
then, with a config path, the credentials decoded from that file (`decoded`, empty when the
file cannot be read). -/
def RegistryScanner.loadDockerAuthConfigs (r : RegistryScanner) (envCred : String)
    (decoded : List String) : RegistryScanner :=
  let creds := r.authConfiguration.authCreds ++ [envCred]
  if r.authConfiguration.configPath ≠ "" then
    { r with authConfiguration := { r.authConfiguration with authCreds := creds ++ decoded } }
  else { r with authConfiguration := { r.authConfiguration with authCreds := creds } }

/-- Embeds `New`: an empty cache and the credentials of `loadDockerAuthConfigs`. -/
def New (dockerConfigPath : String) (envCred : String) (decoded : List String) :
    RegistryScanner :=
  RegistryScanner.loadDockerAuthConfigs
    { authConfiguration := { configPath := dockerConfigPath }, cache := [] } envCred decoded

/-- How `pullImage` ends. -/
inductive PullResult where
  | ok
  | failed
  | crashed
  deriving DecidableEq, Repr

/-- The credential loop of `pullImage`: whether `err` is nil after it, from whether it is
nil before. The loop stops at the first credential with which the pull succeeds. -/
def pullAttempts (imagePull : String → Bool) : List String → Bool → Bool
  | [], errNil => errNil
  | cred :: rest, _ => if imagePull cred then true else pullAttempts imagePull rest false

/-- Embeds `pullImage`. With an error after the loop it returns it. Without credentials
the loop leaves `err` and `out` nil and the deferred `out.Close()` is a nil dereference.
Otherwise the stream is displayed, and the error of the display is what the naked
`return` returns. -/
def RegistryScanner.pullImage (r : RegistryScanner) (w : World) : PullResult :=
  if !pullAttempts w.imagePull r.authConfiguration.authCreds true then .failed
  else if r.authConfiguration.authCreds.isEmpty then .crashed
  else if w.displayFails then .failed
  else .ok

/-- Modelled from the spec: `GetImageInfo` of the image package, which is not among the
sources; it populates OS, architecture, distribution, labels and tags from the metadata of
the pulled image and leaves the other fields alone. -/
def ImageInfo.GetImageInfo (img : ImageInfo) (m : ImageMeta) : ImageInfo :=
  { img with OS := m.OS, Arch := m.Arch, Distro := m.Distro, Labels := m.Labels,
             RepoTags := m.RepoTags }

/-- One call of `Analyze`: the scanner and the descriptor after it, whether `pullImage`
and the extraction were invoked, and whether the call returned (it returns nil whenever it
returns; otherwise the process ended in a panic or `log.Fatal`). -/
structure AnalyzeRun where
  scanner : RegistryScanner
  img : ImageInfo
  pulled : Bool
  extractedTar : Bool
  returned : Bool
  deriving DecidableEq, Repr

/-- Embeds `RegistryScanner.Analyze`. -/
def RegistryScanner.Analyze (r : RegistryScanner) (w : World) (img : ImageInfo) :
    AnalyzeRun :=
  match r.cache.lookup img.Name with
  | some val =>
    ⟨r, { img with Arch := val.Arch, DirList := val.DirList, FileList := val.FileList,
                   Distro := val.Distro, Labels := val.Labels, OS := val.OS,
                   RepoTags := val.RepoTags }, false, false, true⟩
  | none =>
    let img := { img with TempDir := w.tmpDir }
    match r.pullImage w with
    | .crashed => ⟨r, img, true, false, false⟩
    | .failed =>
      let img := { img with OS := "linux", RepoTags := img.RepoTags ++ [img.Name] }
      ⟨{ r with cache := (img.Name, img) :: r.cache }, img, true, false, true⟩
    | .ok =>
      match w.extracted with
      | none => ⟨r, img, true, true, false⟩
      | some (fl, dl) =>
        let img := ({ img with FileList := fl, DirList := dl }).GetImageInfo w.inspected
        ⟨{ r with cache := (img.Name, img) :: r.cache }, img, true, true, true⟩

/-- A sequence of `Analyze` calls on one scanner, each with its descriptor and the world
it meets: the scanner at the end and the image names `pullImage` was invoked with, in
order. The sequence ends early when a call ends the process. -/
def analyzeAll : RegistryScanner → List (World × ImageInfo) → RegistryScanner × List String
  | r, [] => (r, [])
  | r, (w, img) :: rest =>
    let run := r.Analyze w img
    let log := if run.pulled then [img.Name] else []
    if run.returned then
      let after := analyzeAll run.scanner rest
      (after.1, log ++ after.2)
    else (run.scanner, log)

/-! ## Rule database refresh (`policy-templates.go`)

The YAML and JSON decoders, the directory walk and the home directory are outside the
program and come in as a `RefreshEnv`. Files are kept by cleaned path, newest entry first;
`os.ReadFile` is the lookup and fails on a path that has no entry. -/

/-- The YAML and JSON libraries as `updateRulesYAML` and `updatePolicyRules` use them. -/
structure YamlLib where
  /-- the decoding stages of `updateRulesYAML`: the raw `version` field and the decoded
  `policyRules`, `none` when a stage fails (each failure is a `log.Fatal`) -/
  decodeRules : String → Option (String × List MatchSpec)
  /-- `yaml.Unmarshal` into a generic map: the error, or the `apiVersion` entry of the map
  (`none` when the map has no string under that key) -/
  decodeMap : String → Except String (Option String)
  /-- `yaml.Unmarshal` into a `KubeArmorPolicy`: the error, or its `Spec` -/
  decodePolicy : String → Except String KubeArmorPolicySpec
  /-- `yaml.Marshal` of the resolved rules -/
  marshalRules : List MatchSpec → Except String String

/-- The surroundings of a refresh. -/
structure RefreshEnv where
  /-- `UserHome()` -/
  home : String
  /-- the embedded default document `policyRulesYAML` -/
  embedded : String
  yaml : YamlLib
  /-- `filepath.Walk` from a root: the paths of the regular files named `metadata.yaml`
  in walk order, or the error the walk ends with -/
  walk : String → Except String (List String)
  /-- whether `os.Create` of the cached `rules.yaml` succeeds -/
  createOk : Bool

/-- The state a refresh works on: the global `policyRules` and the files on disk. -/
structure RuleState where
  policyRules : List MatchSpec
  files : List (String × String)
  deriving DecidableEq, Repr

/-- How a call ends: it returns nil, returns an error, or the process ends (a panic or
`log.Fatal`); `outOfFuel` is the loop bound of the embedding. -/
inductive Ended where
  | returnedNil
  | returnedErr (msg : String)
  | terminated
  | outOfFuel
  deriving DecidableEq, Repr

/-- Whether the call returned an error. -/
def Ended.isErr : Ended → Bool
  | .returnedErr _ => true
  | _ => false

/-- A run of `updatePolicyRules`: the state it leaves and how it ended. -/
structure RefreshRun where
  state : RuleState
  ended : Ended
  deriving DecidableEq, Repr

/-- Embeds `getCachePath`: `UserHome()`, a slash and the constant `cache`. -/
def getCachePath (home : String) : String :=
  home ++ "/" ++ ".cache/karmor/"

/-- The path `updatePolicyRules` creates the cached document at. -/
def rulesYamlPath (home : String) : String :=
  filepathClean (filepathJoin [getCachePath home, "rules.yaml"])

/-- Embeds `strings.TrimSuffix`. -/
def trimSuffix (s suf : String) : String :=
  if hasSuffix s suf then String.mk (s.toList.take (s.toList.length - suf.toList.length))
  else s

/-- Embeds `strings.Trim(s, "\"")`: the double quotes at both ends are removed. -/
def trimQuotes (s : String) : String :=
  String.mk (((s.toList.dropWhile (· == '"')).reverse.dropWhile (· == '"')).reverse)

/-- Embeds `updateRulesYAML` on the document `yamlFile`: the raw version it returns and
the rules it leaves in `policyRules`; `none` when a decoding stage ends the process. A
document shorter than 30 bytes is replaced by the embedded one. -/
def updateRulesYAML (env : RefreshEnv) (yamlFile : String) :
    Option (String × List MatchSpec) :=
  let yamlFile := if yamlFile.utf8ByteSize < 30 then env.embedded else yamlFile
  env.yaml.decodeRules yamlFile

/-- How the rule loop over one metadata document ends. -/
inductive ResolveEnd where
  | done (completePolicy : List MatchSpec)
  | failed (err : String)
  | crashed
  | outOfFuel
  deriving DecidableEq, Repr

/-- The inner loop of `updatePolicyRules` over the rules that `updateRulesYAML` left in
`policyRules`, for the metadata document `file` of the tree `filePath`. A rule with a
template reference has the template read next to the metadata document, or else under the
root of the tree, and decoded: a template of another kind drops the rule, a template of
the kubearmor kind gives the rule its `Spec` and clears `Yaml`. -/
def resolveLoop (env : RefreshEnv) (files : List (String × String)) (filePath file : String)
    (policyRules : List MatchSpec) : Nat → Int → List MatchSpec → ResolveEnd
  | 0, _, _ => .outOfFuel
  | fuel + 1, idx, completePolicy =>
    match getNextRule policyRules idx with
    | none => .crashed
    | some (.error _, _) => .done completePolicy
    | some (.ok ms, idx) =>
      if ms.Yaml ≠ "" then
        let newYaml :=
          match files.lookup (filepathClean (trimSuffix file "metadata.yaml" ++ ms.Yaml)) with
          | some text => text
          | none => (files.lookup (filepathClean (filePath ++ "/" ++ ms.Yaml))).getD ""
        match env.yaml.decodeMap newYaml with
        | .error err => .failed err
        | .ok none => .crashed
        | .ok (some apiVersion) =>
          if strContains apiVersion "kubearmor" then
            match env.yaml.decodePolicy newYaml with
            | .error err => .failed err
            | .ok spec =>
              resolveLoop env files filePath file policyRules fuel idx
                (completePolicy ++ [{ ms with Spec := spec, Yaml := "" }])
          else resolveLoop env files filePath file policyRules fuel idx completePolicy
      else resolveLoop env files filePath file policyRules fuel idx (completePolicy ++ [ms])

/-- The loop of `updatePolicyRules` over the metadata documents: the state, the resolved
rules so far and the last version read. -/
def fileLoop (env : RefreshEnv) (filePath : String) :
    List String → RuleState → List MatchSpec → String →
      RefreshRun ⊕ (RuleState × List MatchSpec × String)
  | [], st, completePolicy, version => .inr (st, completePolicy, version)
  | file :: rest, st, completePolicy, _ =>
    match st.files.lookup (filepathClean file) with
    | none => .inl ⟨st, .returnedErr ("open " ++ filepathClean file)⟩
    | some yamlFile =>
      match updateRulesYAML env yamlFile with
      | none => .inl ⟨{ st with policyRules := [] }, .terminated⟩
      | some (version, rules) =>
        let st := { st with policyRules := rules }
        match resolveLoop env st.files filePath file rules (rules.length + 1) 0
            completePolicy with
        | .done completePolicy => fileLoop env filePath rest st completePolicy version
        | .failed err => .inl ⟨st, .returnedErr err⟩
        | .crashed => .inl ⟨st, .terminated⟩
        | .outOfFuel => .inl ⟨st, .outOfFuel⟩

/-- Embeds `updatePolicyRules` on the extracted tree `filePath`. -/
def updatePolicyRules (env : RefreshEnv) (st : RuleState) (filePath : String) : RefreshRun :=
  match env.walk filePath with
  | .error err => ⟨st, .returnedErr err⟩
  | .ok files =>
    let st : RuleState :=
      if env.createOk then { st with files := (rulesYamlPath env.home, "") :: st.files }
      else st
    match fileLoop env filePath files st [] "" with
    | .inl run => run
    | .inr (st, completePolicy, version) =>
      let st := { st with policyRules := completePolicy }
      match env.yaml.marshalRules completePolicy with
      | .error err => ⟨st, .returnedErr err⟩
      | .ok yamlFile =>
        let text := "version: " ++ trimQuotes version ++ "\npolicyRules:\n" ++ yamlFile
        if env.createOk then
          ⟨{ st with files := (rulesYamlPath env.home, text) :: st.files }, .returnedNil⟩
        else ⟨st, .returnedNil⟩

/-- A refresh environment for evaluating `updatePolicyRules` at a concrete input: the
tree `/home/u/.cache/karmor/policy-templates-0.2.0` holds one metadata document, with one
rule that refers to the template `ksp.yaml`, and the text of that template, an opening
brace alone, is not YAML. The decoders answer as the libraries do on these texts. -/
def sampleEnv : RefreshEnv where
  home := "/home/u"
  embedded := ""
  yaml :=
    { decodeRules := fun text =>
        if text = "version: v0.2.0\npolicyRules:\n- name: new\n  yaml: ksp.yaml\n" then
          some ("\"v0.2.0\"", [{ Name := "new", Yaml := "ksp.yaml" }])
        else none
      decodeMap := fun text =>
        if text = "\x7b" then .error "error converting YAML to JSON" else .ok none
      decodePolicy := fun _ => .error "error converting YAML to JSON"
      marshalRules := fun _ => .ok "[]\n" }
  walk := fun root =>
    if root = "/home/u/.cache/karmor/policy-templates-0.2.0" then
      .ok ["/home/u/.cache/karmor/policy-templates-0.2.0/metadata.yaml"]
    else .error "lstat: no such file or directory"
  createOk := true

/-- The state before the refresh at the concrete input: one rule in memory, the cached
document that holds it, and the extracted tree of `sampleEnv`. -/
def sampleState : RuleState where
  policyRules := [{ Name := "old" }]
  files :=
    [("/home/u/.cache/karmor/rules.yaml", "version: v0.1.0\npolicyRules:\n- name: old\n"),
     ("/home/u/.cache/karmor/policy-templates-0.2.0/metadata.yaml",
      "version: v0.2.0\npolicyRules:\n- name: new\n  yaml: ksp.yaml\n"),
     ("/home/u/.cache/karmor/policy-templates-0.2.0/ksp.yaml", "\x7b")]

/-- The regexp library cut down to the embedded fragment: the stand-in for `ext` where a
statement evaluates the code on patterns of the fragment only, on which `ext` is not
consulted. -/
def fragmentOnly : Compiler := fun _ => none

/-! ## Rule database document and load (`policy-templates.go`) -/

/-- The document text of `updatePolicyRules`: the format `version: %s\npolicyRules:\n%s`
filled with the version and the marshalled rules. -/
def rulesDocument (version yamlFile : String) : String :=
  "version: " ++ version ++ "\npolicyRules:\n" ++ yamlFile

/-- Writing a version and resolved rules in the document form: the rules are marshalled
as at the end of `updatePolicyRules`, whose error is the error of the write. -/
def writeDocument (lib : YamlLib) (version : String) (rules : List MatchSpec) :
    Except String String :=
  match lib.marshalRules rules with
  | .error err => .error err
  | .ok yamlFile => .ok (rulesDocument version yamlFile)

/-- The path `CurrentRelease` reads: `getCachePath()` followed by `rules.yaml`. -/
def currentReleasePath (home : String) : String :=
  getCachePath home ++ "rules.yaml"

/-- Embeds `CurrentRelease`: the version it returns and the rules it leaves in
`policyRules`, `none` when `updateRulesYAML` ends the process. A cached document that
cannot be read is replaced by the empty document. The file system resolves the path it
is given, so the lookup is by the cleaned path. -/
def CurrentRelease (env : RefreshEnv) (files : List (String × String)) :
    Option (String × List MatchSpec) :=
  let decoded :=
    match files.lookup (filepathClean (currentReleasePath env.home)) with
    | none => updateRulesYAML env ""
    | some text => updateRulesYAML env text
  match decoded with
  | none => none
  | some (version, rules) => some (trimQuotes version, rules)

/-- A refresh environment for evaluating the load and the refresh of the rule database
at concrete inputs. The embedded document holds one rule, `generic`, with the tag `MITRE`
and no precondition. The tree `/home/u/.cache/karmor/policy-templates-0.2.0` holds one
metadata document, of version `v0.2.0` and with an empty rule list; any other tree has
no metadata document. The decoders answer as the libraries do on the embedded document
and on that metadata document, and the marshaller as the library does on the empty rule
list, which it writes as `null`. Every other text is refused, as the library refuses the
text that has `null` in the first column below the key `policyRules`, which is not
YAML. -/
def loadEnv : RefreshEnv where
  home := "/home/u"
  embedded := "version: v0.1.0\npolicyRules:\n- name: generic\n  spec:\n    tags:\n    - MITRE\n"
  yaml :=
    { decodeRules := fun text =>
        if text = "version: v0.1.0\npolicyRules:\n- name: generic\n  spec:\n    tags:\n    - MITRE\n"
        then some ("\"v0.1.0\"", [{ Name := "generic", Spec := { Tags := ["MITRE"] } }])
        else if text = "version: v0.2.0\npolicyRules: []\n" then some ("\"v0.2.0\"", [])
        else none
      decodeMap := fun _ => .ok none
      decodePolicy := fun _ => .error "error converting YAML to JSON"
      marshalRules := fun rules =>
        if rules = [] then .ok "null\n" else .error "json: unsupported value" }
  walk := fun root =>
    if root = "/home/u/.cache/karmor/policy-templates-0.2.0" then
      .ok ["/home/u/.cache/karmor/policy-templates-0.2.0/metadata.yaml"]
    else .ok []
  createOk := true

/-- The state before the refresh at the concrete input: the rule of the embedded
document in memory, no cached document, and the extracted tree of `loadEnv`. -/
def loadState : RuleState where
  policyRules := [{ Name := "generic", Spec := { Tags := ["MITRE"] } }]
  files :=
    [("/home/u/.cache/karmor/policy-templates-0.2.0/metadata.yaml",
      "version: v0.2.0\npolicyRules: []\n")]

/-! ## Entry point (`recommendv2.go`, `generic_policies.go`)

The cluster, the docker daemon and the helper functions of the `recommend` package that
are not among the sources come in as a `RecommendEnv`. -/

/-- The fields of `Options` that the entry point and the command line use. -/
structure Options where
  Images : List String := []
  Labels : List String := []
  Tags : List String := []
  Namespace : String := ""
  Outdir : String := ""
  Reportfile : String := ""
  deriving DecidableEq, Repr

/-- Embeds `Deployment` as `Recommendv2` fills it. -/
structure Deployment where
  Name : String := ""
  Namespace : String := ""
  Labels : List (String × String) := []
  Images : List String := []
  deriving DecidableEq, Repr

/-- The surroundings of `Recommendv2`. -/
structure RecommendEnv where
  /-- the deployments the cluster lists in a namespace, each with its name, namespace,
  template labels and container images, or the error of the list call -/
  listDeployments : String → Except String (List Deployment)
  /-- the helper `labelArrayToLabelMap` -/
  labelArrayToLabelMap : List String → List (String × String)
  /-- the helper `matchLabels` -/
  matchLabels : List (String × String) → List (String × String) → Bool
  /-- the helper `unique` -/
  unique : List String → List String
  /-- the credential `loadDockerAuthConfigs` makes from the environment -/
  envCred : String
  /-- the credentials `loadDockerAuthConfigs` decodes from the docker config file -/
  decoded : List String
  /-- what docker answers for an image name; a name is pulled at most once -/
  docker : String → World
  /-- the surroundings of the rule database load -/
  refresh : RefreshEnv
  /-- the files on disk -/
  files : List (String × String)
  /-- the regexp library outside the embedded fragment -/
  ext : Compiler

/-- Embeds `DownloadAndUnzipRelease`: it loads the rule database with `CurrentRelease`
and returns the latest version with a nil error before the download code, which is never
reached. The result is the rule list left in `policyRules`, `none` when the load ends the
process. -/
def DownloadAndUnzipRelease (env : RefreshEnv) (files : List (String × String)) :
    Option (List MatchSpec) :=
  match CurrentRelease env files with
  | none => none
  | some (_, policyRules) => some policyRules

/-- Embeds `GenericPolicy`. -/
structure GenericPolicy where
  deriving DecidableEq, Repr

/-- Embeds `GenericPolicy.Init`, which has no error to return: the rule list after it. -/
def GenericPolicy.Init (_ : GenericPolicy) (env : RefreshEnv)
    (files : List (String × String)) : Option (List MatchSpec) :=
  DownloadAndUnzipRelease env files

/-- Embeds `GenericPolicy.Scan`: it runs `getPolicyFromImageInfo` with the tags it is
given and returns nil. -/
def GenericPolicy.Scan (_ : GenericPolicy) (ext : Compiler) (policyRules : List MatchSpec)
    (img : ImageInfo) (tags : List String) : ScanRun :=
  getPolicyFromImageInfo ext policyRules img tags

/-- One call of `Scan` by the entry point: the descriptor and the tag list handed to it,
and the run of the engine. -/
structure ScanCall where
  img : ImageInfo
  tags : List String
  run : ScanRun
  deriving DecidableEq, Repr

/-- A run of `Recommendv2`: the global `options` it leaves, the calls of `Scan` in order,
and how it ended. -/
structure RecommendRun where
  options : Options
  scans : List ScanCall
  ended : Ended
  deriving DecidableEq, Repr

/-- The loops of `Recommendv2` over the deployments and their images, as one loop over
the pairs of a deployment and one of its images: the image is analysed, then scanned with
the empty tag list. -/
def recommendLoop (env : RecommendEnv) (gen : GenericPolicy) (policyRules : List MatchSpec) :
    RegistryScanner → List (Deployment × String) → List ScanCall × Ended
  | _, [] => ([], .returnedNil)
  | reg, (deployment, i) :: rest =>
    let img : ImageInfo :=
      { Name := i, Namespace := deployment.Namespace, Labels := deployment.Labels, Image := i }
    let analysed := reg.Analyze (env.docker i) img
    if !analysed.returned then ([], .terminated)
    else
      let run := gen.Scan env.ext policyRules analysed.img []
      match run.status with
      | .panicked => ([⟨analysed.img, [], run⟩], .terminated)
      | .outOfFuel => ([⟨analysed.img, [], run⟩], .outOfFuel)
      | .returned =>
        let after := recommendLoop env gen policyRules analysed.scanner rest
        (⟨analysed.img, [], run⟩ :: after.1, after.2)

/-- Embeds `Recommendv2`. -/
def Recommendv2 (env : RecommendEnv) (o : Options) : RecommendRun :=
  let labelMap := env.labelArrayToLabelMap o.Labels
  let listed : Except String (List Deployment) :=
    if o.Images.length = 0 then
      match env.listDeployments o.Namespace with
      | .error err => .error err
      | .ok dps => .ok (dps.filter (fun dp => env.matchLabels labelMap dp.Labels))
    else .ok [{ Namespace := o.Namespace, Labels := labelMap, Images := o.Images }]
  match listed with
  | .error err => ⟨o, [], .returnedErr err⟩
  | .ok deployments =>
    let o := { o with Tags := env.unique o.Tags }
    let reg := New "/home/vagrant/.docker/config" env.envCred env.decoded
    let gen : GenericPolicy := {}
    match gen.Init env.refresh env.files with
    | none => ⟨o, [], .terminated⟩
    | some policyRules =>
      let pairs := deployments.flatMap (fun d => d.Images.map (fun i => (d, i)))
      let looped := recommendLoop env gen policyRules reg pairs
      ⟨o, looped.1, looped.2⟩

/-- The surroundings for evaluating `Recommendv2` at a concrete input: an empty cluster,
no credential in the environment, a docker daemon that cannot pull, no cached rule
document, so that the rules are those of the embedded document of `loadEnv`. -/
def recommendEnv : RecommendEnv where
  listDeployments := fun _ => .ok []
  labelArrayToLabelMap := fun _ => []
  matchLabels := fun _ _ => true
  unique := fun tags => tags.eraseDups
  envCred := ":"
  decoded := []
  docker := fun _ => {}
  refresh := loadEnv
  files := []
  ext := fragmentOnly

/-! ## Theorems -/

/-! ### Matcher -/

theorem hasSub_iff (sub s : List Char) : hasSub sub s = true ↔ sub <:+: s := by
  induction s with
  | nil =>
    simp only [hasSub, List.isPrefixOf_iff_prefix]
    constructor
    · intro h; exact h.isInfix
    · intro h
      have := List.eq_nil_of_infix_nil h
      subst this
      exact List.nil_prefix
  | cons c s ih =>
    simp only [hasSub, Bool.or_eq_true, List.isPrefixOf_iff_prefix, ih, List.infix_cons_iff]

theorem getNextRule_at (l1 : List MatchSpec) (r : MatchSpec) (l2 : List MatchSpec) :
    getNextRule (l1 ++ r :: l2) (l1.length : Int)
      = some (.ok r, (l1.length : Int) + 1) := by
  have h1 : ¬ ((l1.length : Int) < 0) := by omega
  have h2 : ¬ ((l1.length : Int) ≥ ((l1 ++ r :: l2).length : Int)) := by
    simp only [List.length_append, List.length_cons]; omega
  have h3 : (l1 ++ r :: l2)[l1.length]? = some r := by
    rw [List.getElem?_append_right (Nat.le_refl _)]
    simp
  simp only [getNextRule, h1, h2, if_false, Int.toNat_ofNat, h3]

theorem getNextRule_end (l : List MatchSpec) :
    getNextRule l (l.length : Int) = some (.error "no rule at idx", (l.length : Int)) := by
  have h1 : ¬ ((l.length : Int) < 0) := by omega
  simp [getNextRule, h1]

theorem scanLoop_eq (ext : Compiler) (img : ImageInfo) (tags : List String) :
    ∀ (l2 l1 out : List MatchSpec),
      scanLoop ext (l1 ++ l2) img tags (l2.length + 1) (l1.length : Int) out
        = ⟨out ++ (l2.takeWhile (fun ms =>
              !matchTags ms tags || (checkPreconditions ext img ms).isSome)).filter
              (fun ms => matchTags ms tags && checkPreconditions ext img ms == some true),
            if l2.all (fun ms =>
              !matchTags ms tags || (checkPreconditions ext img ms).isSome)
            then .returned else .panicked⟩ := by
  intro l2
  induction l2 with
  | nil =>
    intro l1 out
    have h := getNextRule_end l1
    simp only [List.append_nil, List.length_nil, Nat.zero_add, scanLoop, h]
    simp
  | cons r l2 ih =>
    intro l1 out
    have h := getNextRule_at l1 r l2
    have hstep : ∀ out', scanLoop ext (l1 ++ r :: l2) img tags (l2.length + 1)
        ((l1.length : Int) + 1) out' = _ := fun out' => by
      have := ih (l1 ++ [r]) out'
      simpa [List.append_assoc] using this
    rw [List.length_cons, scanLoop, h]
    cases hm : matchTags r tags with
    | false => simp [hstep, hm]
    | true =>
      cases hc : checkPreconditions ext img r with
      | none => simp [hm, hc]
      | some b =>
        cases b with
        | false => simp [hstep, hm, hc]
        | true => simp [hstep, hm, hc]

theorem preconditionLoop_sentinel (ext : Compiler) (fl : List String) (s : String)
    (after : List String) (hs : strContains s "OPTSCAN" = true) :
    ∀ (before found : List String),
      (∀ p ∈ before, strContains p "OPTSCAN" = false) →
      preconditionLoop ext fl found (before ++ s :: after)
        = if (before ++ [s]).all (fun p => (checkForSpec ext (filepathJoin [p]) fl).isSome)
          then some .returnedTrue else none := by
  intro before
  induction before with
  | nil =>
    intro found _
    cases hc : checkForSpec ext (filepathJoin [s]) fl <;>
      simp [preconditionLoop, hc, hs]
  | cons p before ih =>
    intro found hno
    have hp : strContains p "OPTSCAN" = false := hno p (List.mem_cons_self _ _)
    have hrest : ∀ q ∈ before, strContains q "OPTSCAN" = false :=
      fun q hq => hno q (List.mem_cons_of_mem _ hq)
    cases hc : checkForSpec ext (filepathJoin [p]) fl with
    | none => simp [preconditionLoop, hc]
    | some more =>
      have hih := ih (found ++ more) hrest
      simp only [List.cons_append, preconditionLoop, hc, hp, Bool.false_eq_true, if_false]
      refine hih.trans ?_
      simp [hc]

theorem starLoop_true (a : ReAtom) (k : List Char → Bool) (hk : ∀ t, k t = true)
    (s : List Char) : starLoop a k s = true := by
  cases s <;> simp [starLoop, hk]

theorem matchHere_lits_eot (w : List Char) :
    ∀ s : List Char,
      matchHere (w.map (fun c => ReItem.one (ReAtom.lit c)) ++ [ReItem.eot]) s = true
        ↔ s = w := by
  induction w with
  | nil =>
    intro s
    cases s <;> simp [matchHere]
  | cons c w ih =>
    intro s
    cases s with
    | nil => simp [matchHere]
    | cons x s =>
      simp only [List.map_cons, List.cons_append, matchHere, Bool.and_eq_true,
        List.append_eq, ih, ReAtom.test, beq_iff_eq, List.cons.injEq]

theorem matchHere_lits_star (a : ReAtom) (w : List Char) :
    ∀ s : List Char,
      matchHere (w.map (fun c => ReItem.one (ReAtom.lit c)) ++ [ReItem.star a]) s = true
        ↔ w <+: s := by
  induction w with
  | nil =>
    intro s
    simp only [List.map_nil, List.nil_append, matchHere, List.nil_prefix, iff_true]
    exact starLoop_true a _ (fun _ => by simp [matchHere]) s
  | cons c w ih =>
    intro s
    cases s with
    | nil => simp [matchHere]
    | cons x s =>
      simp only [List.map_cons, List.cons_append, matchHere, Bool.and_eq_true,
        List.append_eq, ih, ReAtom.test, beq_iff_eq, List.cons_prefix_cons]
      constructor
      · rintro ⟨h1, h2⟩; exact ⟨h1.symm, h2⟩
      · rintro ⟨h1, h2⟩; exact ⟨h1.symm, h2⟩

theorem matchAnywhere_iff (items : List ReItem) (s : List Char) :
    matchAnywhere items s = true ↔ ∃ t, t <:+ s ∧ matchHere items t = true := by
  induction s with
  | nil =>
    simp only [matchAnywhere, List.suffix_nil]
    constructor
    · intro h; exact ⟨[], rfl, h⟩
    · rintro ⟨t, rfl, h⟩; exact h
  | cons c s ih =>
    simp only [matchAnywhere, Bool.or_eq_true, ih, List.suffix_cons_iff]
    constructor
    · rintro (h | ⟨t, ht, h⟩)
      · exact ⟨c :: s, Or.inl rfl, h⟩
      · exact ⟨t, Or.inr ht, h⟩
    · rintro ⟨t, (rfl | ht), h⟩
      · exact Or.inl h
      · exact Or.inr ⟨t, ht, h⟩

theorem matchAnywhere_lits_eot (w s : List Char) :
    matchAnywhere (w.map (fun c => ReItem.one (ReAtom.lit c)) ++ [ReItem.eot]) s
      = w.isSuffixOf s := by
  rw [Bool.eq_iff_iff, matchAnywhere_iff, List.isSuffixOf_iff_suffix]
  constructor
  · rintro ⟨t, ht, h⟩
    rw [matchHere_lits_eot] at h
    exact h ▸ ht
  · intro h
    exact ⟨w, h, (matchHere_lits_eot w w).mpr rfl⟩

theorem matchAnywhere_lits_star (a : ReAtom) (w s : List Char) :
    matchAnywhere (w.map (fun c => ReItem.one (ReAtom.lit c)) ++ [ReItem.star a]) s
      = hasSub w s := by
  rw [Bool.eq_iff_iff, matchAnywhere_iff, hasSub_iff, List.infix_iff_prefix_suffix]
  constructor
  · rintro ⟨t, ht, h⟩
    exact ⟨t, (matchHere_lits_star a w t).mp h, ht⟩
  · rintro ⟨t, hp, ht⟩
    exact ⟨t, ht, (matchHere_lits_star a w t).mpr hp⟩

theorem exists_first_true (q : String → Bool) :
    ∀ l : List String, (∃ p ∈ l, q p = true) →
      ∃ before s after, l = before ++ s :: after
        ∧ (∀ p ∈ before, q p = false) ∧ q s = true := by
  intro l
  induction l with
  | nil => rintro ⟨p, hp, _⟩; cases hp
  | cons x l ih =>
    intro h
    cases hx : q x with
    | true => exact ⟨[], x, l, rfl, ⟨fun _ hp => absurd hp (List.not_mem_nil _), hx⟩⟩
    | false =>
      have hrest : ∃ p ∈ l, q p = true := by
        obtain ⟨p, hp, hq⟩ := h
        rcases List.mem_cons.mp hp with rfl | hp
        · rw [hx] at hq; cases hq
        · exact ⟨p, hp, hq⟩
      obtain ⟨before, s, after, hsplit, hbefore, hs⟩ := ih hrest
      refine ⟨x :: before, s, after, by rw [hsplit]; rfl, ?_, hs⟩
      intro p hp
      rcases List.mem_cons.mp hp with rfl | hp
      · exact hx
      · exact hbefore p hp

/-! ### Registry scanner -/

theorem lookup_cons_of_some (cache : Cache) (k n : String) (v : ImageInfo)
    (hk : cache.lookup k = none) (hn : (cache.lookup n).isSome = true) :
    List.lookup n ((k, v) :: cache) = cache.lookup n := by
  have hne : (n == k) = false := by
    cases h : n == k with
    | false => rfl
    | true =>
      have : n = k := by simpa using h
      subst this
      rw [hk] at hn
      cases hn
  simp [List.lookup_cons, hne]

theorem Analyze_lookup_mono (r : RegistryScanner) (w : World) (img : ImageInfo)
    (n : String) (hn : (r.cache.lookup n).isSome = true) :
    (r.Analyze w img).scanner.cache.lookup n = r.cache.lookup n := by
  unfold RegistryScanner.Analyze
  cases hl : r.cache.lookup img.Name with
  | some val => rfl
  | none =>
    dsimp only
    cases r.pullImage w with
    | crashed => rfl
    | failed => exact lookup_cons_of_some r.cache _ n _ hl hn
    | ok =>
      cases w.extracted with
      | none => rfl
      | some p => exact lookup_cons_of_some r.cache _ n _ hl hn

theorem Analyze_pulled_miss (r : RegistryScanner) (w : World) (img : ImageInfo)
    (hp : (r.Analyze w img).pulled = true) : r.cache.lookup img.Name = none := by
  unfold RegistryScanner.Analyze at hp
  cases hl : r.cache.lookup img.Name with
  | some val => rw [hl] at hp; cases hp
  | none => rfl

theorem Analyze_returned_cached (r : RegistryScanner) (w : World) (img : ImageInfo)
    (hr : (r.Analyze w img).returned = true) :
    ((r.Analyze w img).scanner.cache.lookup img.Name).isSome = true := by
  unfold RegistryScanner.Analyze at hr ⊢
  cases hl : r.cache.lookup img.Name with
  | some val => simp [hl]
  | none =>
    rw [hl] at hr
    dsimp only at hr ⊢
    cases hpl : r.pullImage w with
    | crashed => rw [hpl] at hr; cases hr
    | failed => simp [ImageInfo.GetImageInfo]
    | ok =>
      rw [hpl] at hr
      cases hx : w.extracted with
      | none => rw [hx] at hr; cases hr
      | some p => simp [ImageInfo.GetImageInfo]

theorem analyzeAll_lookup_mono :
    ∀ (calls : List (World × ImageInfo)) (r : RegistryScanner) (n : String),
      (r.cache.lookup n).isSome = true →
      (analyzeAll r calls).1.cache.lookup n = r.cache.lookup n := by
  intro calls
  induction calls with
  | nil => intro r n _; rfl
  | cons c rest ih =>
    intro r n hn
    obtain ⟨w, img⟩ := c
    have h1 := Analyze_lookup_mono r w img n hn
    simp only [analyzeAll]
    split
    · have h2 := ih (r.Analyze w img).scanner n (by rw [h1]; exact hn)
      exact h2.trans h1
    · exact h1

theorem analyzeAll_log :
    ∀ (calls : List (World × ImageInfo)) (r : RegistryScanner),
      (analyzeAll r calls).2.Nodup
        ∧ ∀ n ∈ (analyzeAll r calls).2, r.cache.lookup n = none := by
  intro calls
  induction calls with
  | nil => intro r; simp [analyzeAll]
  | cons c rest ih =>
    intro r
    obtain ⟨w, img⟩ := c
    have hback : ∀ n, (r.Analyze w img).scanner.cache.lookup n = none →
        r.cache.lookup n = none := by
      intro n hnone
      cases hc : r.cache.lookup n with
      | none => rfl
      | some v =>
        have := Analyze_lookup_mono r w img n (by simp [hc])
        rw [hnone, hc] at this
        cases this
    simp only [analyzeAll]
    by_cases hr : (r.Analyze w img).returned = true
    · obtain ⟨hnd, hmiss⟩ := ih (r.Analyze w img).scanner
      have hcached := Analyze_returned_cached r w img hr
      simp only [hr, if_true]
      by_cases hp : (r.Analyze w img).pulled = true
      · simp only [hp, if_true, List.singleton_append, List.nodup_cons, List.mem_cons]
        refine ⟨⟨?_, hnd⟩, ?_⟩
        · intro hmem
          have := hmiss _ hmem
          rw [this] at hcached
          cases hcached
        · rintro n (rfl | hn)
          · exact Analyze_pulled_miss r w img hp
          · exact hback n (hmiss n hn)
      · simp only [hp, Bool.false_eq_true, if_false, List.nil_append]
        exact ⟨hnd, fun n hn => hback n (hmiss n hn)⟩
    · simp only [hr, Bool.false_eq_true, if_false]
      by_cases hp : (r.Analyze w img).pulled = true
      · simp only [hp, if_true, List.nodup_cons, List.not_mem_nil, not_false_eq_true,
          List.nodup_nil, and_self, List.mem_singleton, true_and]
        rintro n rfl
        exact Analyze_pulled_miss r w img hp
      · simp [hp]

theorem pullAttempts_all_fail (imagePull : String → Bool) :
    ∀ (creds : List String) (b : Bool), creds ≠ [] →
      (∀ cred ∈ creds, imagePull cred = false) → pullAttempts imagePull creds b = false := by
  intro creds
  induction creds with
  | nil => intro b h; exact absurd rfl h
  | cons c rest ih =>
    intro b _ hall
    have hc : imagePull c = false := hall c (List.mem_cons_self _ _)
    simp only [pullAttempts, hc, Bool.false_eq_true, if_false]
    cases rest with
    | nil => rfl
    | cons d rest =>
      exact ih false (List.cons_ne_nil _ _) (fun x hx => hall x (List.mem_cons_of_mem _ hx))

theorem Analyze_hit (r : RegistryScanner) (w : World) (img val : ImageInfo)
    (h : r.cache.lookup img.Name = some val) :
    r.Analyze w img
      = ⟨r, { img with Arch := val.Arch, DirList := val.DirList,
                       FileList := val.FileList, Distro := val.Distro,
                       Labels := val.Labels, OS := val.OS, RepoTags := val.RepoTags },
          false, false, true⟩ := by
  unfold RegistryScanner.Analyze
  rw [h]

theorem Analyze_miss_failed (r : RegistryScanner) (w : World) (img : ImageInfo)
    (h : r.cache.lookup img.Name = none) (hp : r.pullImage w = .failed) :
    r.Analyze w img
      = ⟨⟨r.authConfiguration,
            (img.Name, { img with TempDir := w.tmpDir, OS := "linux",
                                  RepoTags := img.RepoTags ++ [img.Name] }) :: r.cache⟩,
          { img with TempDir := w.tmpDir, OS := "linux",
                     RepoTags := img.RepoTags ++ [img.Name] },
          true, false, true⟩ := by
  unfold RegistryScanner.Analyze
  rw [h]
  simp only [hp]

theorem New_authCreds_ne_nil (dockerConfigPath envCred : String) (decoded : List String) :
    (New dockerConfigPath envCred decoded).authConfiguration.authCreds ≠ [] := by
  unfold New RegistryScanner.loadDockerAuthConfigs
  dsimp only
  split <;> simp

theorem New_cache (dockerConfigPath envCred : String) (decoded : List String) :
    (New dockerConfigPath envCred decoded).cache = [] := by
  unfold New RegistryScanner.loadDockerAuthConfigs
  dsimp only
  split <;> rfl

/-! ### Rule database refresh -/

theorem fileLoop_files (env : RefreshEnv) (filePath : String) :
    ∀ (files : List String) (st : RuleState) (completePolicy : List MatchSpec)
      (version : String),
      (fileLoop env filePath files st completePolicy version).elim
        (fun run => run.state.files) (fun p => p.1.files) = st.files := by
  intro files
  induction files with
  | nil => intro st completePolicy version; rfl
  | cons file rest ih =>
    intro st completePolicy version
    simp only [fileLoop]
    generalize st.files.lookup (filepathClean file) = found
    cases found with
    | none => rfl
    | some yamlFile =>
      dsimp only
      generalize updateRulesYAML env yamlFile = decoded
      cases decoded with
      | none => rfl
      | some p =>
        obtain ⟨v, rules⟩ := p
        dsimp only
        generalize resolveLoop env st.files filePath file rules (rules.length + 1) 0
            completePolicy = ended
        cases ended with
        | done cp => exact ih { st with policyRules := rules } cp v
        | failed err => rfl
        | crashed => rfl
        | outOfFuel => rfl

theorem updatePolicyRules_error_truncates (env : RefreshEnv) (st : RuleState)
    (filePath : String) (files : List String) (hw : env.walk filePath = .ok files)
    (hc : env.createOk = true)
    (herr : (updatePolicyRules env st filePath).ended.isErr = true) :
    (updatePolicyRules env st filePath).state.files.lookup (rulesYamlPath env.home)
      = some "" := by
  unfold updatePolicyRules at herr ⊢
  rw [hw] at herr ⊢
  simp only [hc, if_true] at herr ⊢
  have hfiles := fileLoop_files env filePath files
    { st with files := (rulesYamlPath env.home, "") :: st.files } [] ""
  cases hloop : fileLoop env filePath files
      { st with files := (rulesYamlPath env.home, "") :: st.files } [] "" with
  | inl run =>
    rw [hloop] at hfiles
    simp only [Sum.elim_inl] at hfiles
    simp only [hfiles]
    simp
  | inr p =>
    obtain ⟨st', cp, v⟩ := p
    rw [hloop] at hfiles herr
    simp only [Sum.elim_inr] at hfiles
    simp only at herr ⊢
    cases hm : env.yaml.marshalRules cp with
    | error e =>
      simp only [hfiles]
      simp
    | ok text =>
      rw [hm] at herr
      simp [Ended.isErr] at herr

theorem fileLoop_not_nil (env : RefreshEnv) (filePath : String) :
    ∀ (files : List String) (st : RuleState) (completePolicy : List MatchSpec)
      (version : String),
      (fileLoop env filePath files st completePolicy version).elim
        (fun run => run.ended ≠ .returnedNil) (fun _ => True) := by
  intro files
  induction files with
  | nil => intro st completePolicy version; trivial
  | cons file rest ih =>
    intro st completePolicy version
    simp only [fileLoop]
    generalize st.files.lookup (filepathClean file) = found
    cases found with
    | none => simp
    | some yamlFile =>
      dsimp only
      generalize updateRulesYAML env yamlFile = decoded
      cases decoded with
      | none => simp
      | some p =>
        obtain ⟨v, rules⟩ := p
        dsimp only
        generalize resolveLoop env st.files filePath file rules (rules.length + 1) 0
            completePolicy = ended
        cases ended with
        | done cp => exact ih { st with policyRules := rules } cp v
        | failed err => simp
        | crashed => simp
        | outOfFuel => simp

/-! ### Rule database document -/

theorem dropQuotes_quoted (l : List Char) (hhead : l.head? ≠ some '"')
    (hlast : l.getLast? ≠ some '"') :
    ((('"' :: (l ++ ['"'])).dropWhile (· == '"')).reverse.dropWhile (· == '"')).reverse
      = l := by
  cases l with
  | nil => simp [List.dropWhile]
  | cons c l =>
    have hc : (c == '"') = false := by
      cases h : c == '"' with
      | false => rfl
      | true =>
        exfalso
        apply hhead
        simp only [beq_iff_eq] at h
        rw [h]
        rfl
    cases hr : (c :: l).reverse with
    | nil =>
      have := congrArg List.length hr
      simp at this
    | cons x m =>
      have hx : (x == '"') = false := by
        cases h : x == '"' with
        | false => rfl
        | true =>
          exfalso
          apply hlast
          simp only [beq_iff_eq] at h
          rw [List.getLast?_eq_head?_reverse, hr, h]
          rfl
      have hrev : ((c :: l) ++ ['"']).reverse = '"' :: x :: m := by
        rw [List.reverse_append, hr]
        rfl
      have h1 : List.dropWhile (fun x => x == '"') ('"' :: (c :: l ++ ['"']))
          = c :: l ++ ['"'] := by
        simp [List.dropWhile, hc]
      have h2 : List.dropWhile (fun x => x == '"') ('"' :: x :: m) = x :: m := by
        simp [List.dropWhile, hx]
      rw [h1, hrev, h2, ← hr, List.reverse_reverse]

theorem trimQuotes_quoted (version : String) (hhead : version.toList.head? ≠ some '"')
    (hlast : version.toList.getLast? ≠ some '"') :
    trimQuotes ("\"" ++ version ++ "\"") = version := by
  unfold trimQuotes
  have hdata : ("\"" ++ version ++ "\"").toList = '"' :: (version.toList ++ ['"']) := by
    simp [String.toList]
  rw [hdata, dropQuotes_quoted version.toList hhead hlast]
  rfl

theorem updateRulesYAML_short (env : RefreshEnv) (doc : String)
    (hshort : doc.utf8ByteSize < 30) :
    updateRulesYAML env doc = env.yaml.decodeRules env.embedded := by
  simp [updateRulesYAML, hshort]

theorem updateRulesYAML_long (env : RefreshEnv) (doc : String)
    (hlong : 30 ≤ doc.utf8ByteSize) :
    updateRulesYAML env doc = env.yaml.decodeRules doc := by
  have h : ¬ (doc.utf8ByteSize < 30) := by omega
  simp [updateRulesYAML, h]

theorem updatePolicyRules_document (env : RefreshEnv) (st : RuleState) (filePath : String)
    (hc : env.createOk = true)
    (hret : (updatePolicyRules env st filePath).ended = .returnedNil) :
    ∃ version yamlFile,
      env.yaml.marshalRules (updatePolicyRules env st filePath).state.policyRules
          = .ok yamlFile
        ∧ (updatePolicyRules env st filePath).state.files.lookup (rulesYamlPath env.home)
          = some (rulesDocument (trimQuotes version) yamlFile) := by
  unfold updatePolicyRules at hret ⊢
  cases hw : env.walk filePath with
  | error err => rw [hw] at hret; cases hret
  | ok files =>
    rw [hw] at hret
    simp only [hc, if_true] at hret ⊢
    cases hloop : fileLoop env filePath files
        { st with files := (rulesYamlPath env.home, "") :: st.files } [] "" with
    | inl run =>
      rw [hloop] at hret
      simp only at hret
      have hnot : run.ended ≠ .returnedNil := by
        have hfl := fileLoop_not_nil env filePath files
          { st with files := (rulesYamlPath env.home, "") :: st.files } [] ""
        rw [hloop] at hfl
        exact hfl
      exact absurd hret hnot
    | inr p =>
      obtain ⟨st', cp, v⟩ := p
      rw [hloop] at hret
      simp only at hret ⊢
      cases hm : env.yaml.marshalRules cp with
      | error e => rw [hm] at hret; cases hret
      | ok text =>
        refine ⟨v, text, ?_, ?_⟩
        · simp [hm]
        · simp [rulesDocument]

/-! ### Entry point -/

theorem recommendLoop_tags (env : RecommendEnv) (gen : GenericPolicy)
    (policyRules : List MatchSpec) :
    ∀ (pairs : List (Deployment × String)) (reg : RegistryScanner),
      ∀ c ∈ (recommendLoop env gen policyRules reg pairs).1, c.tags = [] := by
  intro pairs
  induction pairs with
  | nil => intro reg c hc; simp [recommendLoop] at hc
  | cons p rest ih =>
    intro reg c hc
    obtain ⟨deployment, i⟩ := p
    simp only [recommendLoop] at hc
    split at hc
    · simp at hc
    · split at hc
      · simp only [List.mem_singleton] at hc
        rw [hc]
      · simp only [List.mem_singleton] at hc
        rw [hc]
      · rcases List.mem_cons.mp hc with h | h
        · rw [h]
        · exact ih _ c h

theorem Recommendv2_scan_tags_nil (env : RecommendEnv) (o : Options) :
    ∀ c ∈ (Recommendv2 env o).scans, c.tags = [] := by
  intro c hc
  unfold Recommendv2 at hc
  dsimp only at hc
  split at hc
  · simp at hc
  · split at hc
    · simp at hc
    · exact recommendLoop_tags env _ _ _ _ c hc

theorem Recommendv2_scans_any_tags (env : RecommendEnv) (o : Options) (tags : List String) :
    (Recommendv2 env { o with Tags := tags }).scans = (Recommendv2 env o).scans
      ∧ (Recommendv2 env { o with Tags := tags }).ended = (Recommendv2 env o).ended := by
  unfold Recommendv2
  dsimp only
  split
  · exact ⟨rfl, rfl⟩
  · split <;> exact ⟨rfl, rfl⟩

/-! ### Claims -/

/-- C1 (failing input): the rule with preconditions `/etc/*` and `/usr/bin/wget`, neither
the sentinel, on the file list `/etc/passwd`, `/etc/group`: no path matches the second
precondition, yet `checkPreconditions` returns true, because the two paths matched by the
first precondition are as many as the rule has preconditions. -/
theorem checkPreconditions_counts_paths :
    checkPreconditions fragmentOnly { FileList := ["/etc/passwd", "/etc/group"] }
        { Precondition := ["/etc/*", "/usr/bin/wget"] } = some true
      ∧ checkForSpec fragmentOnly (filepathJoin ["/etc/*"]) ["/etc/passwd", "/etc/group"]
          = some ["/etc/passwd", "/etc/group"]
      ∧ checkForSpec fragmentOnly (filepathJoin ["/usr/bin/wget"])
          ["/etc/passwd", "/etc/group"] = some []
      ∧ strContains "/etc/*" "OPTSCAN" = false
      ∧ strContains "/usr/bin/wget" "OPTSCAN" = false := by
  decide

/-- C2 (failing input): for the destination root `/tmp/karmor1` and the entry name
`../karmor12/evil` the joined path is `/tmp/karmor12/evil`, which is outside the root,
and `sanitizeArchivePath` accepts it instead of returning an error. -/
theorem sanitizeArchivePath_accepts_sibling :
    sanitizeArchivePath "/tmp/karmor1" "../karmor12/evil" = .ok "/tmp/karmor12/evil"
      ∧ filepathJoin ["/tmp/karmor1", "../karmor12/evil"] = "/tmp/karmor12/evil"
      ∧ insideRoot "/tmp/karmor1" "/tmp/karmor12/evil" = false := by
  refine ⟨rfl, by decide, by decide⟩

/-- C3: `matchTags` returns true exactly when the requested tag list is empty or one of
the requested tags is among the tags of the rule. -/
theorem matchTags_iff (ms : MatchSpec) (tags : List String) :
    matchTags ms tags = true ↔ tags = [] ∨ ∃ t, t ∈ tags ∧ t ∈ ms.Spec.Tags := by
  cases tags with
  | nil => simp [matchTags]
  | cons t ts =>
    have hlen : ¬ ((t :: ts).length ≤ 0) := by simp
    simp only [matchTags, hlen, if_false, List.any_eq_true, List.contains_iff_exists_mem_beq,
      beq_iff_eq, List.cons_ne_nil, false_or]
    constructor
    · rintro ⟨x, hx, y, hy, rfl⟩
      exact ⟨x, hx, hy⟩
    · rintro ⟨x, hx, hy⟩
      exact ⟨x, hx, x, hy, rfl⟩

/-- C4 (counterexample): with the rules `a`, `c` (precondition `*.conf`, which does not
compile) and `d` on a linux image and no tags, the engine emits `a` and panics on `c`;
`d` passes `matchTags` and `checkPreconditions` but is never emitted. -/
theorem getPolicyFromImageInfo_stops_at_panic :
    getPolicyFromImageInfo fragmentOnly
        [{ Name := "a" }, { Name := "c", Precondition := ["*.conf"] }, { Name := "d" }]
        { OS := "linux" } []
        = ⟨[{ Name := "a" }], .panicked⟩
      ∧ matchTags { Name := "d" } [] = true
      ∧ checkPreconditions fragmentOnly { OS := "linux" } { Name := "d" } = some true := by
  decide

/-- C4 (amended): a non-linux image gets no policy. On a linux image the engine emits the
rules of `policyRules` that pass `matchTags` and `checkPreconditions`, in database order
and once each, taken from the rules before the first tag-selected rule on which
`checkPreconditions` panics; it returns when there is no such rule (then the whole list is
filtered) and panics there otherwise. -/
theorem getPolicyFromImageInfo_eq (ext : Compiler) (policyRules : List MatchSpec)
    (img : ImageInfo) (tags : List String) :
    getPolicyFromImageInfo ext policyRules img tags
      = if img.OS ≠ "linux" then ⟨[], .returned⟩
        else if policyRules.all (fun ms =>
            !matchTags ms tags || (checkPreconditions ext img ms).isSome)
        then ⟨policyRules.filter (fun ms =>
            matchTags ms tags && checkPreconditions ext img ms == some true), .returned⟩
        else ⟨(policyRules.takeWhile (fun ms =>
            !matchTags ms tags || (checkPreconditions ext img ms).isSome)).filter
              (fun ms => matchTags ms tags && checkPreconditions ext img ms == some true),
            .panicked⟩ := by
  unfold getPolicyFromImageInfo
  split
  · rfl
  · have h := scanLoop_eq ext img tags policyRules [] []
    simp only [List.nil_append, List.length_nil, Nat.cast_zero] at h
    rw [h]
    split
    · rename_i hall
      have : policyRules.takeWhile (fun ms =>
          !matchTags ms tags || (checkPreconditions ext img ms).isSome) = policyRules := by
        rw [List.takeWhile_eq_self_iff]
        intro x hx
        exact (List.all_eq_true.mp hall) x hx
      rw [this]
    · rfl

/-- C5 (counterexample): `checkForSpec` with the precondition `/etc/passwd` matches the
path `/foo/etc/passwd`, which is not equal to it. -/
theorem checkForSpec_exact_matches_longer :
    checkForSpec fragmentOnly "/etc/passwd" ["/foo/etc/passwd"] = some ["/foo/etc/passwd"] := by
  decide

/-- C5 (amended): the precondition `/etc/passwd` is matched by exactly the paths of the
file list that end with `/etc/passwd` (the pattern is anchored at the end only); the
precondition `/etc/*` is matched by exactly the paths that contain `/etc`, among them
every path that begins with `/etc/`. -/
theorem checkForSpec_exact_and_wildcard (ext : Compiler) (fl : List String) :
    checkForSpec ext "/etc/passwd" fl
        = some (fl.filter (fun name => hasSuffix name "/etc/passwd"))
      ∧ checkForSpec ext "/etc/*" fl = some (fl.filter (fun name => strContains name "/etc"))
      ∧ ∀ name ∈ fl, hasPrefix name "/etc/" = true →
          name ∈ fl.filter (fun name => strContains name "/etc") := by
  refine ⟨?_, ?_, ?_⟩
  · have h1 : (if (!hasSuffix "/etc/passwd" "*") = true then "/etc/passwd" ++ "$"
        else "/etc/passwd") = "/etc/passwd$" := by decide
    have h2 : inFragment "/etc/passwd$".toList = true := by decide
    have h3 : parseItems "/etc/passwd$".toList
        = some ("/etc/passwd".toList.map (fun c => ReItem.one (ReAtom.lit c))
            ++ [ReItem.eot]) := by decide
    simp only [checkForSpec, h1]
    simp only [regexpMustCompile, h2, h3, if_true, Option.map_some', matchAnywhere_lits_eot,
      hasSuffix]
  · have h1 : (if (!hasSuffix "/etc/*" "*") = true then "/etc/*" ++ "$"
        else "/etc/*") = "/etc/*" := by decide
    have h2 : inFragment "/etc/*".toList = true := by decide
    have h3 : parseItems "/etc/*".toList
        = some ("/etc".toList.map (fun c => ReItem.one (ReAtom.lit c))
            ++ [ReItem.star (ReAtom.lit '/')]) := by decide
    simp only [checkForSpec, h1]
    simp only [regexpMustCompile, h2, h3, if_true, Option.map_some', matchAnywhere_lits_star,
      strContains]
  · intro name hmem hpre
    rw [List.mem_filter]
    refine ⟨hmem, ?_⟩
    simp only [strContains, hasSub_iff]
    simp only [hasPrefix, List.isPrefixOf_iff_prefix] at hpre
    have h4 : "/etc".toList <+: "/etc/".toList := ⟨['/'], by decide⟩
    exact (h4.trans hpre).isInfix

/-- C6 (counterexample): a rule with the preconditions `*.conf` and `OPTSCAN`: the first
one does not compile, so `checkPreconditions` panics instead of returning true. -/
theorem checkPreconditions_sentinel_panics :
    checkPreconditions fragmentOnly { FileList := ["/etc/passwd"] }
        { Precondition := ["*.conf", "OPTSCAN"] } = none
      ∧ strContains "OPTSCAN" "OPTSCAN" = true := by
  decide

/-- C6 (amended): for a rule that has a precondition containing `OPTSCAN`, and for every
file list, `checkPreconditions` returns true when the patterns of the preconditions up to
and including the first one containing `OPTSCAN` compile, whatever the file list and the
other preconditions; when one of those patterns does not compile it panics. In particular
it returns true when all the preconditions of the rule compile. -/
theorem checkPreconditions_sentinel (ext : Compiler) (img : ImageInfo) (ms : MatchSpec)
    (hsent : ∃ p ∈ ms.Precondition, strContains p "OPTSCAN" = true) :
    (∃ before s after, ms.Precondition = before ++ s :: after
        ∧ (∀ p ∈ before, strContains p "OPTSCAN" = false)
        ∧ strContains s "OPTSCAN" = true
        ∧ checkPreconditions ext img ms
            = if (before ++ [s]).all
                  (fun p => (checkForSpec ext (filepathJoin [p]) img.FileList).isSome)
              then some true else none)
      ∧ ((∀ p ∈ ms.Precondition,
            (checkForSpec ext (filepathJoin [p]) img.FileList).isSome = true) →
          checkPreconditions ext img ms = some true) := by
  obtain ⟨before, s, after, hsplit, hbefore, hs⟩ :=
    exists_first_true (fun p => strContains p "OPTSCAN") ms.Precondition hsent
  have hval : checkPreconditions ext img ms
      = if (before ++ [s]).all
            (fun p => (checkForSpec ext (filepathJoin [p]) img.FileList).isSome)
        then some true else none := by
    unfold checkPreconditions
    rw [hsplit, preconditionLoop_sentinel ext img.FileList s after hs before [] hbefore]
    by_cases hall : (before ++ [s]).all
        (fun p => (checkForSpec ext (filepathJoin [p]) img.FileList).isSome) = true
    · simp only [hall, if_true]
    · simp [hall]
  refine ⟨⟨before, s, after, hsplit, hbefore, hs, hval⟩, ?_⟩
  intro hall
  rw [hval, if_pos]
  rw [List.all_eq_true]
  intro p hp
  apply hall
  rw [hsplit]
  rcases List.mem_append.mp hp with hp | hp
  · exact List.mem_append_left _ hp
  · rw [List.mem_singleton] at hp
    subst hp
    exact List.mem_append_right _ (List.mem_cons_self _ _)

/-- C6 (witness): the rule with preconditions `/usr/bin/curl`, `OPTSCAN` and `/x` on an
image that has none of these paths. -/
theorem checkPreconditions_sentinel_witness :
    checkPreconditions fragmentOnly { FileList := ["/etc/passwd"] }
        { Precondition := ["/usr/bin/curl", "OPTSCAN", "/x"] } = some true :=
  (checkPreconditions_sentinel fragmentOnly { FileList := ["/etc/passwd"] }
    { Precondition := ["/usr/bin/curl", "OPTSCAN", "/x"] }
    ⟨"OPTSCAN", by decide, by decide⟩).2 (by decide)

/-- C7: a rule with no precondition matches every image: `checkPreconditions` returns
true whatever the file list. -/
theorem checkPreconditions_no_precondition (ext : Compiler) (img : ImageInfo)
    (ms : MatchSpec) (h : ms.Precondition = []) :
    checkPreconditions ext img ms = some true := by
  simp [checkPreconditions, h, preconditionLoop]

/-- C7 (witness): a rule without preconditions on an image with an empty file list. -/
theorem checkPreconditions_no_precondition_witness :
    checkPreconditions fragmentOnly { FileList := [] } { Name := "r" } = some true :=
  checkPreconditions_no_precondition fragmentOnly { FileList := [] } { Name := "r" } rfl

/-- C8: on a scanner that starts with an empty cache, as `New` builds it, no image name
is pulled twice in a sequence of `Analyze` calls; after `Analyze` returns for a descriptor
the cache has an entry under its name; and after any further calls an `Analyze` on a
descriptor with the same name leaves the scanner alone, does not pull or extract, returns,
and copies Arch, DirList, FileList, Distro, Labels, OS and RepoTags from that entry. -/
theorem Analyze_cache_once (r : RegistryScanner) :
    (∀ calls : List (World × ImageInfo), r.cache = [] → (analyzeAll r calls).2.Nodup)
      ∧ ∀ (w : World) (img : ImageInfo) (between : List (World × ImageInfo)) (w2 : World)
          (img2 : ImageInfo),
          (r.Analyze w img).returned = true → img2.Name = img.Name →
          ∃ val, (r.Analyze w img).scanner.cache.lookup img.Name = some val
            ∧ (analyzeAll (r.Analyze w img).scanner between).1.Analyze w2 img2
              = ⟨(analyzeAll (r.Analyze w img).scanner between).1,
                  { img2 with Arch := val.Arch, DirList := val.DirList,
                              FileList := val.FileList, Distro := val.Distro,
                              Labels := val.Labels, OS := val.OS,
                              RepoTags := val.RepoTags },
                  false, false, true⟩ := by
  refine ⟨fun calls _ => (analyzeAll_log calls r).1, ?_⟩
  intro w img between w2 img2 hr hname
  have hsome := Analyze_returned_cached r w img hr
  obtain ⟨val, hval⟩ := Option.isSome_iff_exists.mp hsome
  refine ⟨val, hval, ?_⟩
  have hlater := analyzeAll_lookup_mono between (r.Analyze w img).scanner img.Name hsome
  rw [hval, ← hname] at hlater
  exact Analyze_hit _ w2 img2 val hlater

/-- C8 (witness): on a new scanner `nginx` is analysed (the pull fails), then `redis`,
then `nginx` again: the pulls are `nginx` and `redis`, once each. -/
theorem Analyze_cache_once_witness :
    (analyzeAll (New "" "u:p" [])
      [({}, { Name := "nginx" }), ({}, { Name := "redis" }), ({}, { Name := "nginx" })]).2
      = ["nginx", "redis"]
      ∧ (analyzeAll (New "" "u:p" [])
      [({}, { Name := "nginx" }), ({}, { Name := "redis" }), ({}, { Name := "nginx" })]).2.Nodup :=
  ⟨by decide, (Analyze_cache_once (New "" "u:p" [])).1 _ rfl⟩

/-- C9 (counterexample): a descriptor that is not in the cache of a new scanner and
already carries the tag `old`: the pull fails with the only credential and `Analyze`
leaves RepoTags as `old`, `nginx`, not as the one-element list of the name. -/
theorem Analyze_fallback_appends_tag :
    ((New "" "u:p" []).Analyze { imagePull := fun _ => false }
        { Name := "nginx", RepoTags := ["old"] }).img.RepoTags = ["old", "nginx"]
      ∧ ((New "" "u:p" []).Analyze { imagePull := fun _ => false }
        { Name := "nginx", RepoTags := ["old"] }).returned = true
      ∧ (New "" "u:p" []).authConfiguration.authCreds = ["u:p"]
      ∧ (New "" "u:p" []).cache.lookup "nginx" = none := by
  decide

/-- C9 (amended): for a scanner with at least one credential and a descriptor that is not
in the cache, if the pull fails for every credential then `Analyze` returns, having set
OS to `linux` and appended Name to the RepoTags of the descriptor (so RepoTags is the
one-element list of Name when the descriptor had none), and the cache holds that
descriptor under Name. -/
theorem Analyze_pull_failure (r : RegistryScanner) (w : World) (img : ImageInfo)
    (hmiss : r.cache.lookup img.Name = none) (hcreds : r.authConfiguration.authCreds ≠ [])
    (hfail : ∀ cred ∈ r.authConfiguration.authCreds, w.imagePull cred = false) :
    (r.Analyze w img).returned = true
      ∧ (r.Analyze w img).img
          = { img with TempDir := w.tmpDir, OS := "linux",
                       RepoTags := img.RepoTags ++ [img.Name] }
      ∧ (r.Analyze w img).scanner.cache.lookup img.Name = some (r.Analyze w img).img
      ∧ (img.RepoTags = [] → (r.Analyze w img).img.RepoTags = [img.Name]) := by
  have hp : r.pullImage w = .failed := by
    simp [RegistryScanner.pullImage,
      pullAttempts_all_fail w.imagePull r.authConfiguration.authCreds true hcreds hfail]
  rw [Analyze_miss_failed r w img hmiss hp]
  refine ⟨rfl, rfl, by simp, ?_⟩
  intro h
  simp [h]

/-- C9 (witness): a fresh descriptor `nginx` on a new scanner, which has the credential
of the environment. -/
theorem Analyze_pull_failure_witness :
    ((New "" "u:p" []).Analyze { imagePull := fun _ => false } { Name := "nginx" }).img.OS
        = "linux"
      ∧ ((New "" "u:p" []).Analyze { imagePull := fun _ => false }
          { Name := "nginx" }).img.RepoTags = ["nginx"] :=
  have h := Analyze_pull_failure (New "" "u:p" []) { imagePull := fun _ => false }
    { Name := "nginx" } rfl (New_authCreds_ne_nil "" "u:p" []) (fun _ _ => rfl)
  ⟨by rw [h.2.1], h.2.2.2 rfl⟩

/-- C10 (failing input): the refresh of `sampleState` from the tree of `sampleEnv`
returns an error, because the template `ksp.yaml` does not decode; after the call the
in-memory rule list holds the unresolved rule `new` of the metadata document instead of
the rule `old`, and the cached `rules.yaml` is empty instead of holding the old
document. -/
theorem updatePolicyRules_error_mutates :
    (updatePolicyRules sampleEnv sampleState
        "/home/u/.cache/karmor/policy-templates-0.2.0").ended.isErr = true
      ∧ sampleState.policyRules = [{ Name := "old" }]
      ∧ (updatePolicyRules sampleEnv sampleState
          "/home/u/.cache/karmor/policy-templates-0.2.0").state.policyRules
          = [{ Name := "new", Yaml := "ksp.yaml" }]
      ∧ sampleState.files.lookup (rulesYamlPath sampleEnv.home)
          = some "version: v0.1.0\npolicyRules:\n- name: old\n"
      ∧ (updatePolicyRules sampleEnv sampleState
          "/home/u/.cache/karmor/policy-templates-0.2.0").state.files.lookup
            (rulesYamlPath sampleEnv.home) = some "" := by
  decide

/-- The guard of `updateRulesYAML` on a written document: the version `1` and the empty
rule sequence are written as a document of 29 bytes, and `CurrentRelease` on a cache that
holds it decodes the embedded document instead, which gives the version `v0.1.0` and the
rule `generic`. -/
theorem CurrentRelease_short_document :
    writeDocument loadEnv.yaml "1" [] = .ok "version: 1\npolicyRules:\nnull\n"
      ∧ "version: 1\npolicyRules:\nnull\n".utf8ByteSize = 29
      ∧ CurrentRelease loadEnv
          [("/home/u/.cache/karmor/rules.yaml", "version: 1\npolicyRules:\nnull\n")]
        = some ("v0.1.0", [{ Name := "generic", Spec := { Tags := ["MITRE"] } }]) := by
  refine ⟨rfl, by decide, by decide⟩

/-- C11 (failing input): the version `v0.2.0` and the empty rule sequence. The refresh of
the tree of `loadEnv`, whose metadata document has that version and no rule, returns nil,
leaves no rule in memory and writes the two as the cached document
`version: v0.2.0`, `policyRules:`, `null`, of 34 bytes. That text is not YAML, and
`CurrentRelease` on the files the refresh leaves ends the process in `updateRulesYAML`
instead of yielding the version `v0.2.0` and the empty sequence. -/
theorem CurrentRelease_empty_sequence :
    (updatePolicyRules loadEnv loadState
        "/home/u/.cache/karmor/policy-templates-0.2.0").ended = .returnedNil
      ∧ (updatePolicyRules loadEnv loadState
          "/home/u/.cache/karmor/policy-templates-0.2.0").state.policyRules = []
      ∧ writeDocument loadEnv.yaml "v0.2.0" []
          = .ok "version: v0.2.0\npolicyRules:\nnull\n"
      ∧ (updatePolicyRules loadEnv loadState
          "/home/u/.cache/karmor/policy-templates-0.2.0").state.files.lookup
            (filepathClean (currentReleasePath loadEnv.home))
          = some "version: v0.2.0\npolicyRules:\nnull\n"
      ∧ "version: v0.2.0\npolicyRules:\nnull\n".utf8ByteSize = 34
      ∧ updateRulesYAML loadEnv "version: v0.2.0\npolicyRules:\nnull\n" = none
      ∧ CurrentRelease loadEnv (updatePolicyRules loadEnv loadState
          "/home/u/.cache/karmor/policy-templates-0.2.0").state.files = none := by
  refine ⟨by decide, by decide, rfl, by decide, by decide, by decide, by decide⟩

/-- C12 (failing input): `Recommendv2` for the image `nginx` with the requested tag
`PCI-DSS`: the tag list is kept in the options, but `Scan` is handed the empty tag list,
and the rule `generic`, whose only tag is `MITRE`, is emitted for the image. -/
theorem Recommendv2_ignores_tags :
    (Recommendv2 recommendEnv { Images := ["nginx"], Tags := ["PCI-DSS"] }).options.Tags
        = ["PCI-DSS"]
      ∧ (Recommendv2 recommendEnv { Images := ["nginx"], Tags := ["PCI-DSS"] }).scans.map
          (fun c => c.tags) = [[]]
      ∧ (Recommendv2 recommendEnv { Images := ["nginx"], Tags := ["PCI-DSS"] }).scans.map
          (fun c => c.run.emitted)
          = [[{ Name := "generic", Spec := { Tags := ["MITRE"] } }]]
      ∧ matchTags { Name := "generic", Spec := { Tags := ["MITRE"] } } ["PCI-DSS"] = false := by
  decide

end KubeArmorClient
